import Mathlib

/-!
Verification development for the tv-mt5-auto repository.

The repository has two programs:
  - src/server/main.py : a FastAPI webhook that receives TradingView alerts
    and executes MT5 orders directly (function webhook and its helpers);
  - src/agent/agent.py : a polling agent that pulls queued signals from a relay
    server and executes MT5 orders (function handle_signal and its helpers).

The embedding below models Python floats as rationals (exact arithmetic),
Python round as round-half-to-even, and the MT5 terminal as explicit state:
the net signed position of the traded symbol (positive = long lots,
negative = short lots), which is exactly what main.py's get_position_summary
computes, plus a Boolean saying whether a submitted order is accepted.
Order submissions are recorded in a trace, each record carrying the net
position at the moment order_send is invoked and a tag for the call site
that issued it (direct entry, close_all chain, or branch-4 partial close).
-/

/-- Side of an aggregate position, as the strings long / short / flat in the code. -/
inductive Side
  | long
  | short
  | flat
deriving DecidableEq, Repr

/-- Python round to integer: round-half-to-even (banker's rounding is spelled
without the apostrophe here: round half to even). -/
def pyRoundInt (x : ℚ) : ℤ :=
  if x - (⌊x⌋ : ℚ) < 1/2 then ⌊x⌋
  else if 1/2 < x - (⌊x⌋ : ℚ) then ⌊x⌋ + 1
  else if ⌊x⌋ % 2 = 0 then ⌊x⌋ else ⌊x⌋ + 1

/-- Python round(x, n): round to n decimal places, half to even. -/
def pyRoundTo (x : ℚ) (n : ℕ) : ℚ :=
  (pyRoundInt (x * 10 ^ n) : ℚ) / 10 ^ n

/-- agent.py floor_to_step: floor x to a multiple of step (identity when step is not positive). -/
def floorToStep (x step : ℚ) : ℚ :=
  if step ≤ 0 then x else (⌊x / step⌋ : ℚ) * step

/-- agent.py ceil_to_step: ceil x to a multiple of step (identity when step is not positive). -/
def ceilToStep (x step : ℚ) : ℚ :=
  if step ≤ 0 then x else (⌈x / step⌉ : ℚ) * step

/-- Python idiom `info.volume_step or 0.01`: a zero (falsy) step is replaced by 0.01. -/
def effStep (volumeStep : ℚ) : ℚ :=
  if volumeStep = 0 then 1/100 else volumeStep

/-- Python idiom `info.volume_min or step`: a zero (falsy) minimum is replaced by the step. -/
def effMin (volumeStep volumeMin : ℚ) : ℚ :=
  if volumeMin = 0 then effStep volumeStep else volumeMin

/-- main.py idiom `info.volume_max or max(100.0, vol)` in symbol_round_volume. -/
def effMaxServer (volumeMax vol : ℚ) : ℚ :=
  if volumeMax = 0 then max 100 vol else volumeMax

/-- math.isclose(a, 0.0, abs_tol=1e-9): for comparison with zero this is
exactly the test that the absolute value is at most 1e-9. -/
def isclose0 (a : ℚ) : Bool :=
  decide (|a| ≤ 1/10^9)

/-- main.py same_sign: both strictly positive or both strictly negative. -/
def sameSign (a b : ℚ) : Bool :=
  (decide (0 < a) && decide (0 < b)) || (decide (a < 0) && decide (b < 0))

/-- Per-symbol trading constraints, the fields of mt5.symbol_info used by the code. -/
structure SymCfg where
  volumeStep : ℚ
  volumeMin : ℚ
  volumeMax : ℚ
deriving DecidableEq, Repr

/-- main.py symbol_round_volume (the symbol_info lookup succeeding): snap the
requested volume to the nearest step multiple, rounded to 10 decimals; a snap
below the minimum becomes 0.0; a snap above the maximum becomes the maximum. -/
def symbolRoundVolume (cfg : SymCfg) (vol : ℚ) : ℚ :=
  let step := effStep cfg.volumeStep
  let vmin := effMin cfg.volumeStep cfg.volumeMin
  let vmax := effMaxServer cfg.volumeMax vol
  let snapped := pyRoundTo ((pyRoundInt (vol / step) : ℚ) * step) 10
  let snapped2 := if snapped < vmin then 0 else snapped
  if vmax < snapped2 then vmax else snapped2

/-- Tag for the main.py call site that issued an order: a direct entry
(send_market_order called from a webhook branch), the close_all chain, or the
branch-4 partial close. -/
inductive Purpose
  | entry
  | closing
  | partClose
deriving DecidableEq, Repr

/-- One order_send invocation: the net signed position at the moment of the
call, the order direction (long = market buy, short = market sell), the
volume after snapping, and the issuing call site. -/
structure OrderRec where
  netBefore : ℚ
  side : Side
  vol : ℚ
  purpose : Purpose
deriving DecidableEq, Repr

/-- main.py send_market_order: snap the volume; a non-positive snapped volume
is skipped with success True and no order; otherwise one order is submitted.
orderOk models whether the MT5 terminal accepts the order
(retcode == TRADE_RETCODE_DONE); an accepted buy adds the volume to the net
position and an accepted sell subtracts it. Returns the new net position, the
submitted-order trace and the boolean result of the Python function. -/
def sendMarketOrderS (cfg : SymCfg) (orderOk : Bool) (purpose : Purpose)
    (net : ℚ) (side : Side) (volume : ℚ) : ℚ × List OrderRec × Bool :=
  let vol := symbolRoundVolume cfg volume
  if vol ≤ 0 then (net, [], true)
  else
    let orec : OrderRec := ⟨net, side, vol, purpose⟩
    if orderOk then
      ((if side = Side.long then net + vol else net - vol), [orec], true)
    else (net, [orec], false)

/-- Opposite direction, as used by main.py close_partial. -/
def oppSide : Side → Side
  | Side.long => Side.short
  | Side.short => Side.long
  | Side.flat => Side.flat

/-- main.py get_position_summary on the net-position model: nets long and short
volume into a single side and a non-negative quantity. -/
def posSummary (net : ℚ) : Side × ℚ :=
  if 0 < net then (Side.long, net)
  else if net < 0 then (Side.short, -net)
  else (Side.flat, 0)

/-- main.py close_partial: a partial close is a market order in the opposite direction. -/
def closePartialS (cfg : SymCfg) (orderOk : Bool) (purpose : Purpose)
    (net : ℚ) (side : Side) (volume : ℚ) : ℚ × List OrderRec × Bool :=
  sendMarketOrderS cfg orderOk purpose net (oppSide side) volume

/-- main.py close_all: read the position summary; nothing to close when flat;
otherwise close the full quantity against the actual side (the requested side
is overridden by the actual side when they differ). -/
def closeAllS (cfg : SymCfg) (orderOk : Bool) (net : ℚ) (_requested : Side) :
    ℚ × List OrderRec × Bool :=
  let s := (posSummary net).1
  let qty := (posSummary net).2
  if s = Side.flat then (net, [], true)
  else closePartialS cfg orderOk Purpose.closing net s qty

/-- The TradingView payload parsed by main.py (class TVPayload). -/
structure Payload where
  symbol : String
  action : String
  contracts : ℚ
  posAfter : ℚ
  orderPrice : Option ℚ
  marketPosition : String
deriving DecidableEq, Repr

/-- The duplicate-filter key of main.py: the tuple
(symbol, action, contracts, pos_after, market_position, order_price). -/
structure PayKey where
  symbol : String
  action : String
  contracts : ℚ
  posAfter : ℚ
  marketPosition : String
  orderPrice : Option ℚ
deriving DecidableEq, Repr

def payKey (p : Payload) : PayKey :=
  ⟨p.symbol, p.action, p.contracts, p.posAfter, p.marketPosition, p.orderPrice⟩

/-- The duplicate-filter module state of main.py: _last_key and _last_ts. -/
structure DedupSt where
  lastKey : Option PayKey
  lastTs : ℚ
deriving DecidableEq, Repr

/-- main.py signed_amount. -/
def signedAmount (absAmount : ℚ) (marketPosition : String) : ℚ :=
  if marketPosition = "long" then absAmount
  else if marketPosition = "short" then -absAmount
  else 0

/-- Python str.lower, on the ASCII action strings this system uses. This is an
executable model of String.toLower (whose underlying mapAux does not reduce in
proofs). -/
def pyLower (s : String) : String :=
  ⟨s.data.map Char.toLower⟩

/-- main.py: dir_ = +1 if p.action.lower() == "buy" else -1. -/
def dirOf (p : Payload) : ℚ :=
  if pyLower p.action = "buy" then 1 else -1

/-- main.py: signed_after = signed_amount(p.pos_after, p.market_position). -/
def signedAfterOf (p : Payload) : ℚ :=
  signedAmount p.posAfter p.marketPosition

/-- main.py: signed_before = signed_after - dir_ * p.contracts. -/
def signedBeforeOf (p : Payload) : ℚ :=
  signedAfterOf p - dirOf p * p.contracts

/-- main.py FIXED_ENTRY_LOT = 0.6. -/
def FIXED_ENTRY_LOT : ℚ := 3/5

/-- The result of one webhook call: the duplicate-filter state after the call,
the net position after the call, the ordered order_send trace, and the event
string of the JSON response. -/
structure WebhookOut where
  st : DedupSt
  net : ℚ
  trace : List OrderRec
  event : String
deriving DecidableEq, Repr

/-- main.py webhook branch 1 (reverse): close everything if a local position
exists, then enter FIXED_ENTRY_LOT on the side of the signed target. The entry
is submitted unconditionally after the close attempt; the result of close_all
is not inspected. signed_local equals the net position in this model. -/
def reverseBranch (cfg : SymCfg) (st' : DedupSt) (orderOk : Bool)
    (net signedAfter : ℚ) : WebhookOut :=
  let c := if net ≠ 0 then
      closeAllS cfg orderOk net (if 0 < net then Side.long else Side.short)
    else (net, [], true)
  let newSide := if 0 < signedAfter then Side.long else Side.short
  let e := sendMarketOrderS cfg orderOk Purpose.entry c.1 newSide FIXED_ENTRY_LOT
  ⟨st', e.1, c.2.1 ++ e.2.1, "reverse"⟩

/-- main.py webhook branch 2 (fresh entry, declared before position is zero):
close an opposite local position if any, then enter FIXED_ENTRY_LOT on the
side given by the buy / sell action. -/
def entryBranch (cfg : SymCfg) (st' : DedupSt) (orderOk : Bool)
    (net dir : ℚ) : WebhookOut :=
  let desired := if dir = 1 then Side.long else Side.short
  let c :=
    if 0 < net ∧ desired = Side.short then closeAllS cfg orderOk net Side.long
    else if net < 0 ∧ desired = Side.long then closeAllS cfg orderOk net Side.short
    else (net, [], true)
  let e := sendMarketOrderS cfg orderOk Purpose.entry c.1 desired FIXED_ENTRY_LOT
  ⟨st', e.1, c.2.1 ++ e.2.1, "entry"⟩

/-- main.py webhook branch 4 partial-close quantity: fraction of the declared
decrease applied to the local quantity, snapped by symbol_round_volume. -/
def serverPartialQty (cfg : SymCfg) (localAbs signedBefore signedAfter : ℚ) : ℚ :=
  let frac := (|signedBefore| - |signedAfter|) / max |signedBefore| (1/10^9)
  symbolRoundVolume cfg (localAbs * frac)

/-- main.py webhook branch 4 (same direction, smaller declared magnitude):
skip when no local position; otherwise close the snapped fraction when it is
positive, and fall through (none) when the snapped quantity is zero. -/
def decreaseBranch (cfg : SymCfg) (st' : DedupSt) (orderOk : Bool)
    (net signedBefore signedAfter : ℚ) : Option WebhookOut :=
  if net = 0 then some ⟨st', net, [], "partial_skip_no_local_pos"⟩
  else
    let mySide := if 0 < net then Side.long else Side.short
    let qty := serverPartialQty cfg |net| signedBefore signedAfter
    if 0 < qty then
      let c := closePartialS cfg orderOk Purpose.partClose net mySide qty
      some ⟨st', c.1, c.2.1, "partial_exit"⟩
    else none

/-- main.py webhook branch 5 (declared after is close to zero, before is not):
close everything if a local position exists. -/
def flattenBranch (cfg : SymCfg) (st' : DedupSt) (orderOk : Bool)
    (net : ℚ) : WebhookOut :=
  if net ≠ 0 then
    let c := closeAllS cfg orderOk net (if 0 < net then Side.long else Side.short)
    ⟨st', c.1, c.2.1, "close_all"⟩
  else ⟨st', net, [], "close_all"⟩

/-- main.py webhook: the full request handler on the net-position model.
The branches are checked in source order; note that the reverse test of
branch 1 fires whenever the declared before is nonzero and before and after
do not share a strict sign, which includes every flat-intent signal
(signed after equal to zero), so branch 5 is reachable only for a declared
after that is nonzero yet within 1e-9 of zero. -/
def webhook (cfg : SymCfg) (st : DedupSt) (now : ℚ) (orderOk : Bool)
    (net : ℚ) (p : Payload) : WebhookOut :=
  let dir := dirOf p
  let signedAfter := signedAfterOf p
  let signedBefore := signedBeforeOf p
  if st.lastKey = some (payKey p) ∧ now - st.lastTs < 3/2 then
    ⟨st, net, [], "dup_skip"⟩
  else
    let st' : DedupSt := ⟨some (payKey p), now⟩
    if isclose0 signedBefore = false ∧ sameSign signedBefore signedAfter = false then
      reverseBranch cfg st' orderOk net signedAfter
    else if isclose0 signedBefore = true then
      entryBranch cfg st' orderOk net dir
    else if sameSign signedBefore signedAfter = true ∧ |signedBefore| < |signedAfter| then
      ⟨st', net, [], "pyramiding_ignored"⟩
    else
      let tail :=
        if isclose0 signedAfter = true ∧ isclose0 signedBefore = false then
          flattenBranch cfg st' orderOk net
        else ⟨st', net, [], "noop"⟩
      if sameSign signedBefore signedAfter = true ∧ |signedAfter| < |signedBefore| then
        (decreaseBranch cfg st' orderOk net signedBefore signedAfter).getD tail
      else tail

/-- agent.py EXIT_ACTIONS. -/
def EXIT_ACTIONS : List String :=
  ["close", "exit", "flat", "stop", "sl", "tp", "close_all"]

/-- agent.py dynamic_partial_lot: about one third of the current volume,
floored to the step, at least one step, and at most the current volume. -/
def dynamicPartialLot (volNow step : ℚ) : ℚ :=
  if volNow ≤ 0 then step
  else
    let raw := volNow / 3
    let lot := floorToStep raw step
    let lot2 := if lot < step then step else lot
    if volNow < lot2 then volNow else lot2

/-- agent.py _decide_lot_no_margin: take the larger of the configured base lot
and the minimum, ceil it to the step, floor to a step multiple below the
maximum when it exceeds a nonzero maximum, and finally raise to the minimum. -/
def decideLotNoMargin (volumeStep volumeMin volumeMax baseLot : ℚ) : ℚ :=
  let step := effStep volumeStep
  let vmin := effMin volumeStep volumeMin
  let desired := max vmin baseLot
  let lot := ceilToStep desired step
  let lot2 := if volumeMax ≠ 0 ∧ volumeMax < lot then floorToStep volumeMax step else lot
  max vmin lot2

/-- The while loop of agent.py _decide_lot_with_margin, with an explicit fuel
parameter: while the candidate is at least the minimum and the margin check
fails, step the candidate down (floored to the step grid, then rounded to 10
decimals, exactly as the source line does). The fuel passed by
decideLotWithMargin is proven sufficient below (marginDescend_exit), so the
loop always terminates through its own guard, as the Python loop does. -/
def marginDescend (enough : ℚ → Bool) (vmin step : ℚ) : ℕ → ℚ → ℚ
  | 0, test => test
  | fuel + 1, test =>
    if vmin ≤ test ∧ enough test = false then
      marginDescend enough vmin step fuel (pyRoundTo (floorToStep (test - step) step) 10)
    else test

/-- Fuel bound for marginDescend: an upper bound on the number of loop
iterations when the step is at least 1e-9 (each iteration lowers the
candidate by at least 19/20 of a step). -/
def fuelFor (vmin step test : ℚ) : ℕ :=
  (⌈(test - vmin) * 20 / (19 * step)⌉ + 1).toNat

/-- agent.py _decide_lot_with_margin. The broker margin check
(order_calc_margin against the free margin, returning True as well when the
price or the margin query is unavailable) is abstracted as the predicate
enough on the candidate volume. -/
def decideLotWithMargin (enough : ℚ → Bool)
    (volumeStep volumeMin volumeMax baseLot : ℚ) : ℚ :=
  let step := effStep volumeStep
  let vmin := effMin volumeStep volumeMin
  let desired := max vmin baseLot
  let lot := ceilToStep desired step
  let test := if volumeMax ≠ 0 ∧ volumeMax < lot then floorToStep volumeMax step else lot
  max vmin (marginDescend enough vmin step (fuelFor vmin step test) test)

/-- Agent configuration from environment variables, the part reaching
handle_signal. -/
structure AgentCfg where
  strictFixedMode : Bool
  partialLot : Option ℚ
  fixedEntryLot : ℚ
deriving DecidableEq, Repr

/-- A queued signal as parsed by agent.py handle_signal: action lowercased and
stripped, contracts and pos_after parsed to numbers when present,
market_position lowercased. -/
structure AgentSig where
  action : String
  contracts : Option ℚ
  posAfter : Option ℚ
  marketPosition : String
deriving DecidableEq, Repr

/-- A broker action taken by agent.py handle_signal: a send_market_order call
(side is the buy or sell string passed), a close_partial call, or the
exit-intent close pipeline (close_all_for_candidates, close_by_opposites and
close_all), which issues only closing orders against existing tickets and is
abstracted here as one closes-only action. -/
inductive AAction
  | marketOrder (side : String) (lot : ℚ)
  | partClose (side : Side) (lot : ℚ)
  | closeSweep
deriving DecidableEq, Repr

/-- agent.py position_change computation from LAST_TV_POS (prevPos) and the
parsed pos_after, for a nonempty symbol key. -/
def positionChange (prevPos : Option ℚ) (posAfter : Option ℚ) : String :=
  match posAfter, prevPos with
  | some pa, some pp =>
    if |pa - pp| < 1/10^9 then "same"
    else if |pp| < |pa| then "increase"
    else "decrease"
  | some _, none => "first"
  | none, _ => "unknown"

/-- agent.py handle_signal after symbol resolution: the resolved symbol step,
the precomputed base lot, and the fresh position read (sideNow, volNow) are
inputs; symbol resolution itself queries the live MT5 catalog and is outside
this model. orderOkA abstracts the boolean outcome of a send_market_order
call, closesOk the boolean outcome of a close_partial call or of the
exit-intent close pipeline. Returns the broker actions taken, in order, and
the boolean result of the Python function. -/
def handleSignal (cfg : AgentCfg) (prevPos : Option ℚ) (orderOkA closesOk : Bool)
    (sideNow : Side) (volNow step lotBase : ℚ) (sig : AgentSig) :
    List AAction × Bool :=
  let action := sig.action
  let mp := sig.marketPosition
  let posChange := positionChange prevPos sig.posAfter
  if sideNow = Side.flat ∧ action = "buy" ∧ mp = "short" then ([], true)
  else if sideNow = Side.flat ∧ action = "sell" ∧ mp = "long" then ([], true)
  else if mp = "flat" ∨ action ∈ EXIT_ACTIONS ∨ sig.posAfter = some 0 then
    ([AAction.closeSweep], closesOk)
  else if cfg.strictFixedMode then
    let partialLot :=
      match cfg.partialLot with
      | some pl =>
        if 0 < pl then pl
        else if 0 < cfg.fixedEntryLot then cfg.fixedEntryLot else step
      | none => if 0 < cfg.fixedEntryLot then cfg.fixedEntryLot else step
    match sideNow with
    | Side.flat =>
      if posChange = "decrease" then ([], true)
      else if action ≠ "buy" ∧ action ≠ "sell" then ([], true)
      else ([AAction.marketOrder action lotBase], orderOkA)
    | Side.long =>
      if action = "sell" then
        ([AAction.partClose Side.long (min volNow (max step partialLot))], closesOk)
      else if action = "buy" then ([AAction.marketOrder "buy" lotBase], orderOkA)
      else ([], true)
    | Side.short =>
      if action = "buy" then
        ([AAction.partClose Side.short (min volNow (max step partialLot))], closesOk)
      else if action = "sell" then ([AAction.marketOrder "sell" lotBase], orderOkA)
      else ([], true)
  else
    match sideNow with
    | Side.flat =>
      if posChange = "decrease" then ([], true)
      else if action ≠ "buy" ∧ action ≠ "sell" then ([], true)
      else ([AAction.marketOrder action lotBase], orderOkA)
    | Side.long =>
      if action = "sell" then
        let lotClose := dynamicPartialLot volNow step
        if lotClose ≤ 0 then ([], true)
        else ([AAction.partClose Side.long lotClose], closesOk)
      else ([], true)
    | Side.short =>
      if action = "buy" then
        let lotClose := dynamicPartialLot volNow step
        if lotClose ≤ 0 then ([], true)
        else ([AAction.partClose Side.short lotClose], closesOk)
      else ([], true)

/-- agent.py poll_loop acknowledgement collection: for each pulled item (its
optional id paired with the boolean outcome of handle_signal, False as well
when handle_signal raised), the id is appended to the ack list only when the
outcome is True and the id is present. The /ack request carries only these
ids; there is no per-item status field. -/
def ackIdsOf (items : List (Option ℤ × Bool)) : List ℤ :=
  items.filterMap (fun it => if it.2 = true then it.1 else none)

/-! ### Arithmetic helper lemmas -/

lemma pyRoundInt_le (x : ℚ) : (pyRoundInt x : ℚ) ≤ x + 1/2 := by
  have h1 : (⌊x⌋ : ℚ) ≤ x := Int.floor_le x
  unfold pyRoundInt
  split_ifs with ha hb hc
  · linarith
  · push_cast
    linarith
  · linarith
  · push_cast
    have := not_lt.mp ha
    linarith

lemma pyRoundTo_le (x : ℚ) (n : ℕ) : pyRoundTo x n ≤ x + 1/(2 * 10 ^ n) := by
  have hp : (0:ℚ) < 10 ^ n := by positivity
  have h := pyRoundInt_le (x * 10 ^ n)
  unfold pyRoundTo
  rw [div_le_iff hp]
  have hkey : (x + 1/(2 * 10 ^ n)) * 10 ^ n = x * 10 ^ n + 1/2 := by
    field_simp
    ring
  rw [hkey]
  exact h

lemma floorToStep_le (x step : ℚ) (h : 0 < step) : floorToStep x step ≤ x := by
  unfold floorToStep
  rw [if_neg (not_le.mpr h)]
  have h1 : (⌊x / step⌋ : ℚ) ≤ x / step := Int.floor_le _
  calc (⌊x / step⌋ : ℚ) * step ≤ (x / step) * step :=
        mul_le_mul_of_nonneg_right h1 h.le
  _ = x := div_mul_cancel₀ x h.ne'

lemma le_ceilToStep (x step : ℚ) (h : 0 < step) : x ≤ ceilToStep x step := by
  unfold ceilToStep
  rw [if_neg (not_le.mpr h)]
  have h1 : x / step ≤ (⌈x / step⌉ : ℚ) := Int.le_ceil _
  calc x = (x / step) * step := (div_mul_cancel₀ x h.ne').symm
  _ ≤ (⌈x / step⌉ : ℚ) * step := mul_le_mul_of_nonneg_right h1 h.le

lemma floorToStep_eq_mul (x step : ℚ) (h : 0 < step) :
    floorToStep x step = (⌊x / step⌋ : ℚ) * step := by
  unfold floorToStep
  rw [if_neg (not_le.mpr h)]

lemma ceilToStep_eq_mul (x step : ℚ) (h : 0 < step) :
    ceilToStep x step = (⌈x / step⌉ : ℚ) * step := by
  unfold ceilToStep
  rw [if_neg (not_le.mpr h)]

/-- The loop of _decide_lot_with_margin exits through its own guard when given
the fuel bound of fuelFor: the returned candidate is below the minimum or
passes the margin check. The step hypothesis 1e-9 matches the numeric
tolerance used throughout the code; each iteration lowers the candidate by at
least step - 1/(2e10), which is at least 19/20 of a step. -/
lemma marginDescend_exit (enough : ℚ → Bool) (vmin step : ℚ)
    (hstep : 1/10^9 ≤ step) :
    ∀ fuel : ℕ, ∀ test : ℚ,
      (⌈(test - vmin) * 20 / (19 * step)⌉ + 1 : ℤ) ≤ (fuel : ℤ) →
      marginDescend enough vmin step fuel test < vmin ∨
        enough (marginDescend enough vmin step fuel test) = true := by
  have hstep0 : (0:ℚ) < step := lt_of_lt_of_le (by norm_num) hstep
  intro fuel
  induction fuel with
  | zero =>
    intro test hf
    left
    simp only [marginDescend]
    by_contra hc
    push_neg at hc
    have hpos : (0:ℚ) ≤ (test - vmin) * 20 / (19 * step) :=
      div_nonneg (by linarith) (by linarith)
    have hle : ((test - vmin) * 20 / (19 * step)) ≤
        ((⌈(test - vmin) * 20 / (19 * step)⌉ : ℤ) : ℚ) := Int.le_ceil _
    have hneg : (⌈(test - vmin) * 20 / (19 * step)⌉ : ℤ) ≤ -1 := by
      omega
    have hnegq : ((⌈(test - vmin) * 20 / (19 * step)⌉ : ℤ) : ℚ) ≤ -1 := by
      exact_mod_cast hneg
    linarith
  | succ fuel ih =>
    intro test hf
    simp only [marginDescend]
    by_cases hcond : vmin ≤ test ∧ enough test = false
    · rw [if_pos hcond]
      apply ih
      have h1 : pyRoundTo (floorToStep (test - step) step) 10 ≤
          test - step + 1/(2 * 10 ^ 10) := by
        have ha := pyRoundTo_le (floorToStep (test - step) step) 10
        have hb := floorToStep_le (test - step) step hstep0
        calc pyRoundTo (floorToStep (test - step) step) 10 ≤
            floorToStep (test - step) step + 1/(2 * 10 ^ 10) := ha
        _ ≤ test - step + 1/(2 * 10 ^ 10) := by linarith
      have h2 : pyRoundTo (floorToStep (test - step) step) 10 - vmin ≤
          (test - vmin) - (19/20) * step := by
        have hsmall : (1:ℚ)/(2 * 10 ^ 10) ≤ step / 20 := by
          linarith
        linarith
      have hD : (0:ℚ) < 19 * step := by linarith
      have h3 : (pyRoundTo (floorToStep (test - step) step) 10 - vmin) * 20 / (19 * step) ≤
          (test - vmin) * 20 / (19 * step) - 1 := by
        rw [div_le_iff hD]
        have hkey : ((test - vmin) * 20 / (19 * step) - 1) * (19 * step) =
            (test - vmin) * 20 - 19 * step := by
          field_simp
        rw [hkey]
        nlinarith [h2]
      have h4 : (⌈(pyRoundTo (floorToStep (test - step) step) 10 - vmin) * 20 / (19 * step)⌉ : ℤ) ≤
          ⌈(test - vmin) * 20 / (19 * step)⌉ - 1 := by
        have hmono := Int.ceil_le_ceil h3
        have hsub : (⌈(test - vmin) * 20 / (19 * step) - 1⌉ : ℤ) =
            ⌈(test - vmin) * 20 / (19 * step)⌉ - 1 := by
          have := Int.ceil_sub_int ((test - vmin) * 20 / (19 * step)) 1
          simpa using this
        omega
      push_cast at hf ⊢
      omega
    · rw [if_neg hcond]
      rcases not_and_or.mp hcond with h | h
      · left
        exact not_le.mp h
      · right
        cases hb : enough test with
        | false => exact absurd hb h
        | true => rfl

/-- Upper bound on symbol_round_volume: round-to-nearest snapping can exceed
the request by half a step plus the 10-decimal rounding slack; the minimum
clamp only lowers the value to 0 and the maximum clamp only lowers it. -/
lemma symbolRoundVolume_le (cfg : SymCfg) (x : ℚ)
    (hstep : 0 < effStep cfg.volumeStep) (hx : 0 ≤ x) :
    symbolRoundVolume cfg x ≤ x + effStep cfg.volumeStep / 2 + 1/10^10 := by
  simp only [symbolRoundVolume]
  have hsn : pyRoundTo ((pyRoundInt (x / effStep cfg.volumeStep) : ℚ) * effStep cfg.volumeStep) 10 ≤
      x + effStep cfg.volumeStep / 2 + 1/(2 * 10 ^ 10) := by
    have h1 : (pyRoundInt (x / effStep cfg.volumeStep) : ℚ) ≤ x / effStep cfg.volumeStep + 1/2 :=
      pyRoundInt_le _
    have h2 : (pyRoundInt (x / effStep cfg.volumeStep) : ℚ) * effStep cfg.volumeStep ≤
        (x / effStep cfg.volumeStep + 1/2) * effStep cfg.volumeStep :=
      mul_le_mul_of_nonneg_right h1 hstep.le
    have h3 : (x / effStep cfg.volumeStep + 1/2) * effStep cfg.volumeStep =
        x + effStep cfg.volumeStep / 2 := by
      field_simp
      ring
    have h4 := pyRoundTo_le ((pyRoundInt (x / effStep cfg.volumeStep) : ℚ) * effStep cfg.volumeStep) 10
    rw [h3] at h2
    calc pyRoundTo ((pyRoundInt (x / effStep cfg.volumeStep) : ℚ) * effStep cfg.volumeStep) 10 ≤
        (pyRoundInt (x / effStep cfg.volumeStep) : ℚ) * effStep cfg.volumeStep + 1/(2 * 10 ^ 10) := h4
    _ ≤ x + effStep cfg.volumeStep / 2 + 1/(2 * 10 ^ 10) := by linarith
  split_ifs with h1 h2 h3 <;> linarith

/-- Every order issued by sendMarketOrderS carries the purpose it was called with. -/
lemma sendMarketOrderS_purpose (cfg : SymCfg) (ok : Bool) (pur : Purpose)
    (net : ℚ) (side : Side) (vol : ℚ) :
    ∀ o ∈ (sendMarketOrderS cfg ok pur net side vol).2.1, o.purpose = pur := by
  intro o ho
  simp only [sendMarketOrderS] at ho
  split_ifs at ho <;> simp at ho <;> subst ho <;> rfl

/-- Every order issued by closePartialS carries the purpose it was called with. -/
lemma closePartialS_purpose (cfg : SymCfg) (ok : Bool) (pur : Purpose)
    (net : ℚ) (side : Side) (vol : ℚ) :
    ∀ o ∈ (closePartialS cfg ok pur net side vol).2.1, o.purpose = pur := by
  intro o ho
  exact sendMarketOrderS_purpose cfg ok pur net (oppSide side) vol o ho

/-- Every order issued by closeAllS is a closing order. -/
lemma closeAllS_purpose (cfg : SymCfg) (ok : Bool) (net : ℚ) (req : Side) :
    ∀ o ∈ (closeAllS cfg ok net req).2.1, o.purpose = Purpose.closing := by
  intro o ho
  simp only [closeAllS] at ho
  split_ifs at ho
  · simp at ho
  · exact closePartialS_purpose _ _ _ _ _ _ o ho

lemma flattenBranch_st (cfg : SymCfg) (st' : DedupSt) (ok : Bool) (net : ℚ) :
    (flattenBranch cfg st' ok net).st = st' := by
  unfold flattenBranch
  split_ifs <;> rfl

lemma decreaseBranch_st (cfg : SymCfg) (st' : DedupSt) (ok : Bool)
    (net sb sa : ℚ) (r : WebhookOut)
    (h : decreaseBranch cfg st' ok net sb sa = some r) : r.st = st' := by
  simp only [decreaseBranch] at h
  split_ifs at h <;> first | (cases h; rfl) | cases h

lemma decreaseGetD_st (cfg : SymCfg) (st' : DedupSt) (ok : Bool)
    (net sb sa : ℚ) (tail : WebhookOut) (htail : tail.st = st') :
    ((decreaseBranch cfg st' ok net sb sa).getD tail).st = st' := by
  rcases hd : decreaseBranch cfg st' ok net sb sa with _ | r
  · exact htail
  · simp only [Option.getD]
    exact decreaseBranch_st _ _ _ _ _ _ r hd

/-- A webhook call that is not filtered as a duplicate always stores the
payload key and the current time into the duplicate-filter state. -/
lemma webhook_st (cfg : SymCfg) (st : DedupSt) (now : ℚ) (orderOk : Bool)
    (net : ℚ) (p : Payload)
    (h : ¬(st.lastKey = some (payKey p) ∧ now - st.lastTs < 3/2)) :
    (webhook cfg st now orderOk net p).st = ⟨some (payKey p), now⟩ := by
  simp only [webhook]
  rw [if_neg h]
  split_ifs <;>
    first
      | rfl
      | exact flattenBranch_st _ _ _ _
      | exact decreaseGetD_st _ _ _ _ _ _ _ (flattenBranch_st _ _ _ _)
      | exact decreaseGetD_st _ _ _ _ _ _ _ rfl

lemma flattenBranch_event (cfg : SymCfg) (st' : DedupSt) (ok : Bool) (net : ℚ) :
    (flattenBranch cfg st' ok net).event = "close_all" := by
  unfold flattenBranch
  split_ifs <;> rfl

lemma decreaseGetD_event (cfg : SymCfg) (st' : DedupSt) (ok : Bool)
    (net sb sa : ℚ) (tail : WebhookOut) (htail : tail.event ≠ "reverse") :
    ((decreaseBranch cfg st' ok net sb sa).getD tail).event ≠ "reverse" := by
  rcases hd : decreaseBranch cfg st' ok net sb sa with _ | r
  · exact htail
  · simp only [Option.getD]
    simp only [decreaseBranch] at hd
    split_ifs at hd <;> first | (cases hd; simp) | cases hd

/-- C1. Claim: for every flat-intent signal (market_position flat, pos_after 0,
or an exit action) the handler never submits a new directional market entry
order. The server webhook violates this: on the concrete flat exit signal
action sell, contracts 9, pos_after 0, market_position flat, with a current
long position of 9 lots, the reverse test of branch 1 fires (same_sign(9, 0)
is false), the position is closed and then a NEW short market entry of
FIXED_ENTRY_LOT = 0.6 is submitted with the entry call site, leaving the
account short 0.6 lots; the dedicated close-all branch of the webhook is
unreachable for pos_after exactly 0. This theorem evaluates the code at that
failing input. -/
theorem c1_flat_intent_entry_bug :
    webhook ⟨1/10, 1/10, 100⟩ ⟨none, 0⟩ 100 true 9
        ⟨"NQ1!", "sell", 9, 0, none, "flat"⟩ =
      ⟨⟨some ⟨"NQ1!", "sell", 9, 0, "flat", none⟩, 100⟩, -(3/5),
        [⟨9, Side.short, 9, Purpose.closing⟩, ⟨0, Side.short, 3/5, Purpose.entry⟩],
        "reverse"⟩ ∧
    ∃ o ∈ (webhook ⟨1/10, 1/10, 100⟩ ⟨none, 0⟩ 100 true 9
        ⟨"NQ1!", "sell", 9, 0, none, "flat"⟩).trace, o.purpose = Purpose.entry := by
  have hlow : (pyLower "sell" = "buy") = False := eq_false (by decide)
  have e1 : (Side.short = Side.long) = False := eq_false (by decide)
  have e2 : (Side.long = Side.flat) = False := eq_false (by decide)
  have e3 : (Side.long = Side.short) = False := eq_false (by decide)
  have e4 : (Side.short = Side.flat) = False := eq_false (by decide)
  have heq : webhook ⟨1/10, 1/10, 100⟩ ⟨none, 0⟩ 100 true 9
      ⟨"NQ1!", "sell", 9, 0, none, "flat"⟩ =
      ⟨⟨some ⟨"NQ1!", "sell", 9, 0, "flat", none⟩, 100⟩, -(3/5),
        [⟨9, Side.short, 9, Purpose.closing⟩, ⟨0, Side.short, 3/5, Purpose.entry⟩],
        "reverse"⟩ := by
    norm_num [webhook, payKey, dirOf, signedAfterOf, signedBeforeOf, signedAmount,
      reverseBranch, entryBranch, decreaseBranch, flattenBranch, closeAllS, closePartialS,
      sendMarketOrderS, symbolRoundVolume, posSummary, oppSide, serverPartialQty,
      isclose0, sameSign, effStep, effMin, effMaxServer, pyRoundTo, pyRoundInt,
      FIXED_ENTRY_LOT, Option.getD, max_def, min_def, hlow, e1, e2, e3, e4]
  refine ⟨heq, ⟨0, Side.short, 3/5, Purpose.entry⟩, ?_, rfl⟩
  rw [heq]
  simp

/-- C2 counterexample. Claim: on a reversal the Enter order is never submitted
before the CloseAll has been confirmed to have brought the position to zero.
Concrete refutation: current long 1 lot, reversal signal to short 6 (action
sell, contracts 7, pos_after 6, market_position short), with the broker
rejecting orders (orderOk false, so the close fails and the position stays at
1): the webhook still submits the entry order, whose recorded net position at
submission is 1, not 0 — the close result is never inspected and the position
is never re-read between the two orders. -/
theorem c2_enter_without_zero_confirmation :
    (webhook ⟨1/10, 1/10, 100⟩ ⟨none, 0⟩ 100 false 1
        ⟨"NQ1!", "sell", 7, 6, none, "short"⟩).trace =
      [⟨1, Side.short, 1, Purpose.closing⟩, ⟨1, Side.short, 3/5, Purpose.entry⟩] ∧
    (webhook ⟨1/10, 1/10, 100⟩ ⟨none, 0⟩ 100 false 1
        ⟨"NQ1!", "sell", 7, 6, none, "short"⟩).event = "reverse" ∧
    ∃ o ∈ (webhook ⟨1/10, 1/10, 100⟩ ⟨none, 0⟩ 100 false 1
        ⟨"NQ1!", "sell", 7, 6, none, "short"⟩).trace,
      o.purpose = Purpose.entry ∧ o.netBefore ≠ 0 := by
  have hlow : (pyLower "sell" = "buy") = False := eq_false (by decide)
  have e1 : (Side.short = Side.long) = False := eq_false (by decide)
  have e2 : (Side.long = Side.flat) = False := eq_false (by decide)
  have e3 : (Side.long = Side.short) = False := eq_false (by decide)
  have e4 : (Side.short = Side.flat) = False := eq_false (by decide)
  have hs1 : (("short":String) = "long") = False := eq_false (by decide)
  have heq : webhook ⟨1/10, 1/10, 100⟩ ⟨none, 0⟩ 100 false 1
      ⟨"NQ1!", "sell", 7, 6, none, "short"⟩ =
      ⟨⟨some ⟨"NQ1!", "sell", 7, 6, "short", none⟩, 100⟩, 1,
        [⟨1, Side.short, 1, Purpose.closing⟩, ⟨1, Side.short, 3/5, Purpose.entry⟩],
        "reverse"⟩ := by
    norm_num [hs1, webhook, payKey, dirOf, signedAfterOf, signedBeforeOf, signedAmount,
      reverseBranch, entryBranch, decreaseBranch, flattenBranch, closeAllS, closePartialS,
      sendMarketOrderS, symbolRoundVolume, posSummary, oppSide, serverPartialQty,
      isclose0, sameSign, effStep, effMin, effMaxServer, pyRoundTo, pyRoundInt,
      FIXED_ENTRY_LOT, Option.getD, max_def, min_def, hlow, e1, e2, e3, e4]
  refine ⟨by rw [heq], by rw [heq], ⟨1, Side.short, 3/5, Purpose.entry⟩, ?_, rfl, by norm_num⟩
  rw [heq]
  simp

/-- C2 amended. For every webhook call whose result event is reverse, the
order trace splits into closing orders followed by entry orders: the CloseAll
(submitted only when a position is open) always precedes the Enter in program
order. What the original claim adds beyond this — that the Enter is only
submitted after the close is confirmed to have zeroed the position — is false
(see the counterexample): the entry is submitted unconditionally after the
close attempt.  -/
theorem c2_reverse_close_precedes_enter (cfg : SymCfg) (st : DedupSt) (now : ℚ)
    (orderOk : Bool) (net : ℚ) (p : Payload)
    (hrev : (webhook cfg st now orderOk net p).event = "reverse") :
    ∃ cs es, (webhook cfg st now orderOk net p).trace = cs ++ es ∧
      (∀ o ∈ cs, o.purpose = Purpose.closing) ∧
      (∀ o ∈ es, o.purpose = Purpose.entry) := by
  by_cases hdup : st.lastKey = some (payKey p) ∧ now - st.lastTs < 3/2
  · have hev : (webhook cfg st now orderOk net p).event = "dup_skip" := by
      simp only [webhook]
      rw [if_pos hdup]
    rw [hev] at hrev
    exact absurd hrev (by decide)
  · simp only [webhook, if_neg hdup] at hrev ⊢
    split_ifs at hrev ⊢ with h1 h2 h3 h4 h5
    · simp only [reverseBranch]
      refine ⟨_, _, rfl, ?_, ?_⟩
      · intro o ho
        split_ifs at ho <;>
          first
            | exact closeAllS_purpose _ _ _ _ o ho
            | exact absurd (show o ∈ ([] : List OrderRec) from ho) (List.not_mem_nil o)
      · intro o ho
        exact sendMarketOrderS_purpose _ _ _ _ _ _ o ho
    all_goals first
      | exact absurd hrev (by simp [entryBranch])
      | exact absurd hrev (by simp)
      | (rw [flattenBranch_event] at hrev
         exact absurd hrev (by decide))
      | exact absurd hrev
          (decreaseGetD_event _ _ _ _ _ _ _ (by rw [flattenBranch_event]; decide))
      | exact absurd hrev (decreaseGetD_event _ _ _ _ _ _ _ (by simp))

/-- Witness for the C2 amended theorem at a concrete reversal: current long 2,
signal to short 6, orders accepted. -/
theorem c2_reverse_close_precedes_enter_witness :
    ∃ cs es, (webhook ⟨1/10, 1/10, 100⟩ ⟨none, 0⟩ 7 true 2
        ⟨"NQ1!", "sell", 8, 6, none, "short"⟩).trace = cs ++ es ∧
      (∀ o ∈ cs, o.purpose = Purpose.closing) ∧
      (∀ o ∈ es, o.purpose = Purpose.entry) := by
  apply c2_reverse_close_precedes_enter
  have hlow : (pyLower "sell" = "buy") = False := eq_false (by decide)
  have hs1 : (("short":String) = "long") = False := eq_false (by decide)
  have e1 : (Side.short = Side.long) = False := eq_false (by decide)
  have e2 : (Side.long = Side.flat) = False := eq_false (by decide)
  have e3 : (Side.long = Side.short) = False := eq_false (by decide)
  have e4 : (Side.short = Side.flat) = False := eq_false (by decide)
  norm_num [hs1, webhook, payKey, dirOf, signedAfterOf, signedBeforeOf, signedAmount,
    reverseBranch, entryBranch, decreaseBranch, flattenBranch, closeAllS, closePartialS,
    sendMarketOrderS, symbolRoundVolume, posSummary, oppSide, serverPartialQty,
    isclose0, sameSign, effStep, effMin, effMaxServer, pyRoundTo, pyRoundInt,
    FIXED_ENTRY_LOT, Option.getD, max_def, min_def, hlow, e1, e2, e3, e4]

/-- Case analysis for _decide_lot_with_margin: the returned lot is either
exactly the effective minimum, or a value at least the minimum that passes
the margin check. -/
lemma decideLotWithMargin_cases (enough : ℚ → Bool) (vs vm vx bl : ℚ)
    (hstep : 1/10^9 ≤ effStep vs) :
    decideLotWithMargin enough vs vm vx bl = effMin vs vm ∨
    (enough (decideLotWithMargin enough vs vm vx bl) = true ∧
      effMin vs vm ≤ decideLotWithMargin enough vs vm vx bl) := by
  simp only [decideLotWithMargin]
  generalize (if vx ≠ 0 ∧ vx < ceilToStep (max (effMin vs vm) bl) (effStep vs) then
      floorToStep vx (effStep vs)
    else ceilToStep (max (effMin vs vm) bl) (effStep vs)) = T
  have hfuel : (⌈(T - effMin vs vm) * 20 / (19 * effStep vs)⌉ + 1 : ℤ) ≤
      ((fuelFor (effMin vs vm) (effStep vs) T : ℕ) : ℤ) := by
    simp only [fuelFor]
    exact Int.self_le_toNat _
  rcases marginDescend_exit enough (effMin vs vm) (effStep vs) hstep
      (fuelFor (effMin vs vm) (effStep vs) T) T hfuel with h | h
  · left
    exact max_eq_left h.le
  · rcases le_total (marginDescend enough (effMin vs vm) (effStep vs)
        (fuelFor (effMin vs vm) (effStep vs) T) T) (effMin vs vm) with hle | hge
    · left
      exact max_eq_left hle
    · right
      rw [max_eq_right hge]
      exact ⟨h, hge⟩

/-- C3 counterexample. Claim: the margin-checked sizing function returns an
affordable lot, and surfaces a zero-size failure when even the minimum lot is
unaffordable. Concrete refutation with the margin check modeled as
2000 * lot of required margin against 10 of free margin (so no lot of at
least the minimum 0.1 is affordable): _decide_lot_with_margin returns the
minimum 0.1 itself — a nonzero lot that fails the margin check — because of
its final max(vol_min, test); no zero-size failure is ever produced. -/
theorem c3_min_unaffordable_returns_min :
    decideLotWithMargin (fun q => decide ((2000:ℚ) * q ≤ 10)) (1/10) (1/10) 100 (3/5) = 1/10 ∧
    ¬ ((2000:ℚ) * (1/10) ≤ 10) := by
  have hstep : (1:ℚ)/10^9 ≤ effStep (1/10) := by norm_num [effStep]
  constructor
  · rcases decideLotWithMargin_cases (fun q => decide ((2000:ℚ) * q ≤ 10))
        (1/10) (1/10) 100 (3/5) hstep with h | h
    · rw [h]
      norm_num [effMin]
    · exfalso
      have h1 : (2000:ℚ) *
          decideLotWithMargin (fun q => decide ((2000:ℚ) * q ≤ 10)) (1/10) (1/10) 100 (3/5) ≤ 10 :=
        of_decide_eq_true h.1
      have h2 := h.2
      rw [show effMin (1/10) (1/10) = (1:ℚ)/10 from by norm_num [effMin]] at h2
      linarith
  · norm_num

/-- C3 amended. In margin-checked mode the returned lot passes the broker
margin check provided the effective minimum lot itself is affordable; when
even the minimum is unaffordable the function instead returns the minimum (an
unaffordable lot, see the counterexample) rather than a zero-size failure.
The step hypothesis reflects the 1e-9 numeric tolerance of the code. -/
theorem c3_affordable_when_min_affordable (enough : ℚ → Bool)
    (volumeStep volumeMin volumeMax baseLot : ℚ)
    (hstep : 1/10^9 ≤ effStep volumeStep)
    (hmin : enough (effMin volumeStep volumeMin) = true) :
    enough (decideLotWithMargin enough volumeStep volumeMin volumeMax baseLot) = true := by
  rcases decideLotWithMargin_cases enough volumeStep volumeMin volumeMax baseLot hstep with h | h
  · rw [h]
    exact hmin
  · exact h.1

/-- Witness for the C3 amended theorem: every lot up to 0.5 affordable,
constraints step 0.1, min 0.1, max 100, base lot 0.6. -/
theorem c3_affordable_when_min_affordable_witness :
    decide (decideLotWithMargin (fun q => decide (q ≤ (1:ℚ)/2)) (1/10) (1/10) 100 (3/5) ≤ (1:ℚ)/2) = true :=
  c3_affordable_when_min_affordable (fun q => decide (q ≤ (1:ℚ)/2)) (1/10) (1/10) 100 (3/5)
    (by norm_num [effStep])
    (by rw [show effMin (1/10) (1/10) = (1:ℚ)/10 from by norm_num [effMin]]
        norm_num)

/-- C4 counterexample. Claim: for step 0.3, min 0.2, max 0.25 (all the claim
hypotheses hold: step positive, min positive, max at least min) and
requested lot 0.25, _decide_lot_no_margin returns 0.2: the ceil 0.3 exceeds
the maximum, the re-floor of the maximum gives 0, and the final
max(vol_min, lot) returns the raw minimum 0.2, which is not within 1e-9 of
any integer multiple of the step 0.3 (0.2 / 0.3 = 2/3). -/
theorem c4_step_multiple_violation :
    decideLotNoMargin (3/10) (1/5) (1/4) (1/4) = 1/5 ∧
    ∀ n : ℤ, ¬ (|(1:ℚ)/5 / (3/10) - n| ≤ 1/10^9) := by
  constructor
  · have hc : (⌈(5:ℚ)/6⌉ : ℤ) = 1 := by
      rw [Int.ceil_eq_iff] <;> norm_num
    norm_num [decideLotNoMargin, effStep, effMin, ceilToStep, floorToStep, max_def, hc]
  · intro n
    have hn : n ≤ 0 ∨ 1 ≤ n := by omega
    have h23 : (1:ℚ)/5 / (3/10) = 2/3 := by norm_num
    rw [h23]
    rcases hn with hn | hn
    · have hq : (n:ℚ) ≤ 0 := by exact_mod_cast hn
      rw [abs_of_nonneg (by linarith)]
      intro hcon
      linarith
    · have hq : (1:ℚ) ≤ (n:ℚ) := by exact_mod_cast hn
      rw [abs_of_nonpos (by linarith)]
      intro hcon
      linarith

/-- C4 amended. For step, min positive and max at least min, the no-margin
sizing result always satisfies min ≤ v ≤ max; the step-multiple property (v
divided by the step within 1e-9 of an integer, here in fact exactly an
integer) holds under the additional hypothesis that the minimum lot is itself
an integer multiple of the step — without it the returned lot can be the raw
minimum, off the step grid (see the counterexample). -/
theorem c4_lot_bounds (volumeStep volumeMin volumeMax baseLot : ℚ)
    (hstep : 0 < volumeStep) (hmin : 0 < volumeMin) (hmax : volumeMin ≤ volumeMax) :
    volumeMin ≤ decideLotNoMargin volumeStep volumeMin volumeMax baseLot ∧
    decideLotNoMargin volumeStep volumeMin volumeMax baseLot ≤ volumeMax ∧
    ((∃ k : ℤ, volumeMin = k * volumeStep) →
      ∃ n : ℤ, |decideLotNoMargin volumeStep volumeMin volumeMax baseLot / volumeStep - n| ≤ 1/10^9) := by
  have hs0 : volumeStep ≠ 0 := ne_of_gt hstep
  have hm0 : volumeMin ≠ 0 := ne_of_gt hmin
  have hes : effStep volumeStep = volumeStep := by
    unfold effStep
    rw [if_neg hs0]
  have hem : effMin volumeStep volumeMin = volumeMin := by
    unfold effMin
    rw [if_neg hm0]
  simp only [decideLotNoMargin, hes, hem]
  have hceil : max volumeMin baseLot ≤ ceilToStep (max volumeMin baseLot) volumeStep :=
    le_ceilToStep _ _ hstep
  have hlotmin : volumeMin ≤ ceilToStep (max volumeMin baseLot) volumeStep :=
    le_trans (le_max_left _ _) hceil
  by_cases hcl : volumeMax ≠ 0 ∧ volumeMax < ceilToStep (max volumeMin baseLot) volumeStep
  · rw [if_pos hcl]
    have hfl : floorToStep volumeMax volumeStep ≤ volumeMax := floorToStep_le _ _ hstep
    refine ⟨le_max_left _ _, max_le hmax hfl, ?_⟩
    rintro ⟨k, hk⟩
    rcases le_total volumeMin (floorToStep volumeMax volumeStep) with h | h
    · rw [max_eq_right h, floorToStep_eq_mul _ _ hstep]
      exact ⟨⌊volumeMax / volumeStep⌋,
        by rw [mul_div_cancel_right₀ _ hs0, sub_self, abs_zero]; norm_num⟩
    · rw [max_eq_left h, hk]
      exact ⟨k, by rw [mul_div_cancel_right₀ _ hs0, sub_self, abs_zero]; norm_num⟩
  · rw [if_neg hcl]
    push_neg at hcl
    have hmax0 : volumeMax ≠ 0 := ne_of_gt (lt_of_lt_of_le hmin hmax)
    have hle : ceilToStep (max volumeMin baseLot) volumeStep ≤ volumeMax :=
      hcl hmax0
    rw [max_eq_right hlotmin]
    refine ⟨hlotmin, hle, ?_⟩
    rintro ⟨k, hk⟩
    rw [ceilToStep_eq_mul _ _ hstep]
    exact ⟨⌈max volumeMin baseLot / volumeStep⌉,
      by rw [mul_div_cancel_right₀ _ hs0, sub_self, abs_zero]; norm_num⟩

/-- Witness for C4 at step 0.1, min 0.2, max 1, requested 0.25. -/
theorem c4_lot_bounds_witness :
    (0:ℚ) < 1/10 ∧ (0:ℚ) < 1/5 ∧ ((1:ℚ)/5 ≤ 1) ∧
    ((1:ℚ)/5 ≤ decideLotNoMargin (1/10) (1/5) 1 (1/4) ∧
      decideLotNoMargin (1/10) (1/5) 1 (1/4) ≤ 1 ∧
      ((∃ k : ℤ, (1:ℚ)/5 = k * (1/10)) →
        ∃ n : ℤ, |decideLotNoMargin (1/10) (1/5) 1 (1/4) / (1/10) - n| ≤ 1/10^9)) :=
  ⟨by norm_num, by norm_num, by norm_num,
    c4_lot_bounds (1/10) (1/5) 1 (1/4) (by norm_num) (by norm_num) (by norm_num)⟩

/-- C5 counterexample. Claim: a partial-decrease close lot never exceeds the
current position volume. Concrete refutation on the server path: current long
0.16 lots, signal sell, contracts 99, pos_after 1, market_position long
(declared decrease from 100 to 1, fraction 0.99): the requested close is
0.16 x 0.99 = 0.1584, which symbol_round_volume snaps UP to 0.2 (round to
nearest step 0.1), and branch 4 submits a partial close of 0.2 lots against a
0.16-lot position; the accepted sell leaves the account net short 0.04. -/
theorem c5_partial_exceeds_position :
    webhook ⟨1/10, 1/10, 100⟩ ⟨none, 0⟩ 100 true (16/100)
        ⟨"NQ1!", "sell", 99, 1, none, "long"⟩ =
      ⟨⟨some ⟨"NQ1!", "sell", 99, 1, "long", none⟩, 100⟩, -(1/25),
        [⟨16/100, Side.short, 1/5, Purpose.partClose⟩], "partial_exit"⟩ ∧
    (16:ℚ)/100 < 1/5 := by
  have hlow : (pyLower "sell" = "buy") = False := eq_false (by decide)
  have e1 : (Side.short = Side.long) = False := eq_false (by decide)
  have e2 : (Side.long = Side.flat) = False := eq_false (by decide)
  have e3 : (Side.long = Side.short) = False := eq_false (by decide)
  have e4 : (Side.short = Side.flat) = False := eq_false (by decide)
  have h1 : |(4:ℚ)/25| = 4/25 := by norm_num
  have h2 : Int.fract ((198:ℚ)/125) = 73/125 := by
    rw [Int.fract]
    norm_num
  have h3 : Int.fract ((2000000000:ℚ)) = 0 := by
    rw [Int.fract]
    norm_num
  constructor
  · norm_num [webhook, payKey, dirOf, signedAfterOf, signedBeforeOf, signedAmount,
      reverseBranch, entryBranch, decreaseBranch, flattenBranch, closeAllS, closePartialS,
      sendMarketOrderS, symbolRoundVolume, posSummary, oppSide, serverPartialQty,
      isclose0, sameSign, effStep, effMin, effMaxServer, pyRoundTo, pyRoundInt,
      FIXED_ENTRY_LOT, Option.getD, max_def, min_def, hlow, e1, e2, e3, e4, h1, h2, h3]
  · norm_num

/-- C5 amended. The agent policy-fraction lot (dynamic_partial_lot, about one
third of the position) is always strictly positive and at most the current
volume. The server trusted-fraction lot (branch 4, current volume times
(before - after) / before snapped by symbol_round_volume) is positive when it
is executed (the code guards on qty > 0) but is only bounded by the current
volume plus half a lot step plus the 10-decimal rounding slack — round to
nearest can exceed the position by up to half a step, as the counterexample
shows. -/
theorem c5_partial_bounds (volNow step : ℚ) (cfg : SymCfg)
    (localAbs signedBefore signedAfter : ℚ)
    (hstep : 0 < step) (hvol : 0 < volNow)
    (hstepS : 0 < effStep cfg.volumeStep) (hlocal : 0 ≤ localAbs)
    (hdec : |signedAfter| ≤ |signedBefore|) :
    (0 < dynamicPartialLot volNow step ∧ dynamicPartialLot volNow step ≤ volNow) ∧
    serverPartialQty cfg localAbs signedBefore signedAfter ≤
      localAbs + effStep cfg.volumeStep / 2 + 1/10^10 := by
  constructor
  · simp only [dynamicPartialLot]
    split_ifs <;>
      first
        | (exfalso; linarith)
        | (constructor <;> linarith)
  · simp only [serverPartialQty]
    set frac := (|signedBefore| - |signedAfter|) / max |signedBefore| (1/10^9) with hfracdef
    have hden : (0:ℚ) < max |signedBefore| (1/10^9) :=
      lt_of_lt_of_le (by norm_num) (le_max_right _ _)
    have hfrac0 : 0 ≤ frac := by
      rw [hfracdef]
      exact div_nonneg (by linarith) hden.le
    have hfrac1 : frac ≤ 1 := by
      rw [hfracdef, div_le_one hden]
      have hb1 : |signedBefore| ≤ max |signedBefore| (1/10^9) := le_max_left _ _
      have hb2 : (0:ℚ) ≤ |signedAfter| := abs_nonneg _
      linarith
    have hx0 : 0 ≤ localAbs * frac := mul_nonneg hlocal hfrac0
    have hx1 : localAbs * frac ≤ localAbs := by
      calc localAbs * frac ≤ localAbs * 1 := mul_le_mul_of_nonneg_left hfrac1 hlocal
      _ = localAbs := mul_one _
    have hb := symbolRoundVolume_le cfg (localAbs * frac) hstepS hx0
    linarith

/-- Witness for the C5 amended theorem: agent position 0.6 lots with step 0.1;
server constraints step 0.1, min 0.1, max 100, local 0.16, declared 100 to 1. -/
theorem c5_partial_bounds_witness :
    ((0:ℚ) < dynamicPartialLot (3/5) (1/10) ∧ dynamicPartialLot (3/5) (1/10) ≤ 3/5) ∧
    serverPartialQty ⟨1/10, 1/10, 100⟩ (4/25) 100 1 ≤
      4/25 + effStep ((1:ℚ)/10) / 2 + 1/10^10 :=
  c5_partial_bounds (3/5) (1/10) ⟨1/10, 1/10, 100⟩ (4/25) 100 1
    (by norm_num) (by norm_num) (by norm_num [effStep]) (by norm_num) (by norm_num)

/-- C6 counterexample. Claim: a pyramiding signal (same direction, larger
target) leads to no broker action at all. Refutation: in STRICT_FIXED_MODE,
with a long position open and a buy signal increasing the TradingView
position from 9 to 12, handle_signal submits another market buy of the base
lot — the position is increased. -/
theorem c6_strict_pyramiding_orders :
    handleSignal ⟨true, none, 3/5⟩ (some 9) true true Side.long (3/5) (1/10) (3/5)
        ⟨"buy", some 3, some 12, "long"⟩ = ([AAction.marketOrder "buy" (3/5)], true) ∧
    ([AAction.marketOrder "buy" (3/5)] : List AAction) ≠ [] := by
  constructor
  · rfl
  · simp

/-- C6 amended. Pyramiding is ignored on two of the three signal paths: the
server webhook answers pyramiding_ignored with no orders whenever the
declared before and after share a sign, the magnitude grows and the declared
before is not within 1e-9 of zero; and the agent outside STRICT_FIXED_MODE
takes no action on a same-direction signal (long with buy, short with sell)
that is not exit-intent. In STRICT_FIXED_MODE the agent instead submits an
additional same-direction market order (see the counterexample). -/
theorem c6_pyramiding_ignored
    (cfg : SymCfg) (st : DedupSt) (now : ℚ) (orderOk : Bool) (net : ℚ) (p : Payload)
    (acfg : AgentCfg) (prevPos : Option ℚ) (orderOkA closesOk : Bool)
    (sideNow : Side) (volNow step lotBase : ℚ) (sig : AgentSig)
    (hnodup : ¬(st.lastKey = some (payKey p) ∧ now - st.lastTs < 3/2))
    (hsame : sameSign (signedBeforeOf p) (signedAfterOf p) = true)
    (hgrow : |signedBeforeOf p| < |signedAfterOf p|)
    (hnz : isclose0 (signedBeforeOf p) = false)
    (hstrict : acfg.strictFixedMode = false)
    (hcombo : (sideNow = Side.long ∧ sig.action = "buy") ∨
      (sideNow = Side.short ∧ sig.action = "sell"))
    (hmp : sig.marketPosition ≠ "flat")
    (hpa : sig.posAfter ≠ some 0) :
    webhook cfg st now orderOk net p =
      ⟨⟨some (payKey p), now⟩, net, [], "pyramiding_ignored"⟩ ∧
    handleSignal acfg prevPos orderOkA closesOk sideNow volNow step lotBase sig = ([], true) := by
  constructor
  · simp only [webhook]
    rw [if_neg hnodup]
    rw [if_neg (show ¬(isclose0 (signedBeforeOf p) = false ∧
        sameSign (signedBeforeOf p) (signedAfterOf p) = false) from by simp [hsame])]
    rw [if_neg (show ¬(isclose0 (signedBeforeOf p) = true) from by simp [hnz])]
    rw [if_pos ⟨hsame, hgrow⟩]
  · have hbuy : ¬(("buy":String) ∈ EXIT_ACTIONS) := by decide
    have hsell : ¬(("sell":String) ∈ EXIT_ACTIONS) := by decide
    have e2 : (Side.long = Side.flat) = False := eq_false (by decide)
    have e4 : (Side.short = Side.flat) = False := eq_false (by decide)
    rcases hcombo with ⟨hside, hact⟩ | ⟨hside, hact⟩ <;> subst hside <;>
      simp [handleSignal, hact, hstrict, hmp, hpa, hbuy, hsell, e2, e4]

/-- Witness for the C6 amended theorem: webhook pyramiding signal buy 9 to 12
with a long 9 position; agent non-strict long position with a buy signal. -/
theorem c6_pyramiding_ignored_witness :
    webhook ⟨1/10, 1/10, 100⟩ ⟨none, 0⟩ 100 true 9 ⟨"NQ1!", "buy", 3, 12, none, "long"⟩ =
      ⟨⟨some (payKey ⟨"NQ1!", "buy", 3, 12, none, "long"⟩), 100⟩, 9, [], "pyramiding_ignored"⟩ ∧
    handleSignal ⟨false, none, 3/5⟩ (some 9) true true Side.long (3/5) (1/10) (3/5)
      ⟨"buy", some 3, some 12, "long"⟩ = ([], true) := by
  have hb : pyLower "buy" = "buy" := by decide
  apply c6_pyramiding_ignored
  · decide
  · norm_num [sameSign, signedBeforeOf, signedAfterOf, signedAmount, dirOf, hb]
  · norm_num [signedBeforeOf, signedAfterOf, signedAmount, dirOf, hb]
  · norm_num [isclose0, signedBeforeOf, signedAfterOf, signedAmount, dirOf, hb]
  · rfl
  · exact Or.inl ⟨rfl, rfl⟩
  · decide
  · simp

/-- C7 counterexample. Claim: whenever the account is flat and the action
contradicts the declared intended side, the handler is an exit-only no-op
with no entry in either direction. The server webhook has no such gate and
refutes this: on a flat account, payload action buy, market_position short,
contracts 0, pos_after 0 gives declared before and after both 0, so branch 2
(fresh entry) fires and submits a market BUY of FIXED_ENTRY_LOT = 0.6 — a new
long entry from a contradictory signal on a flat account, at the very lines
the claim cites. -/
theorem c7_server_contradiction_enters :
    webhook ⟨1/10, 1/10, 100⟩ ⟨none, 0⟩ 100 true 0 ⟨"NQ1!", "buy", 0, 0, none, "short"⟩ =
      ⟨⟨some ⟨"NQ1!", "buy", 0, 0, "short", none⟩, 100⟩, 3/5,
        [⟨0, Side.long, 3/5, Purpose.entry⟩], "entry"⟩ ∧
    ∃ o ∈ (webhook ⟨1/10, 1/10, 100⟩ ⟨none, 0⟩ 100 true 0
        ⟨"NQ1!", "buy", 0, 0, none, "short"⟩).trace, o.purpose = Purpose.entry := by
  have hlow : pyLower "buy" = "buy" := by decide
  have hs1 : (("short":String) = "long") = False := eq_false (by decide)
  have e1 : (Side.short = Side.long) = False := eq_false (by decide)
  have e2 : (Side.long = Side.flat) = False := eq_false (by decide)
  have e3 : (Side.long = Side.short) = False := eq_false (by decide)
  have e4 : (Side.short = Side.flat) = False := eq_false (by decide)
  have heq : webhook ⟨1/10, 1/10, 100⟩ ⟨none, 0⟩ 100 true 0
      ⟨"NQ1!", "buy", 0, 0, none, "short"⟩ =
      ⟨⟨some ⟨"NQ1!", "buy", 0, 0, "short", none⟩, 100⟩, 3/5,
        [⟨0, Side.long, 3/5, Purpose.entry⟩], "entry"⟩ := by
    norm_num [hlow, hs1, webhook, payKey, dirOf, signedAfterOf, signedBeforeOf, signedAmount,
      reverseBranch, entryBranch, decreaseBranch, flattenBranch, closeAllS, closePartialS,
      sendMarketOrderS, symbolRoundVolume, posSummary, oppSide, serverPartialQty,
      isclose0, sameSign, effStep, effMin, effMaxServer, pyRoundTo, pyRoundInt,
      FIXED_ENTRY_LOT, Option.getD, max_def, min_def, e1, e2, e3, e4]
  refine ⟨heq, ⟨0, Side.long, 3/5, Purpose.entry⟩, ?_, rfl⟩
  rw [heq]
  simp

/-- C7 amended. The safety gate exists in the agent only: when the account is
flat and the action direction contradicts the declared intended side (buy
with market_position short, or sell with market_position long), agent.py
handle_signal returns success immediately and takes no broker action at all —
in particular no entry order in either direction. The server webhook has no
such gate (see the counterexample). -/
theorem c7_safety_gate_no_entry (acfg : AgentCfg) (prevPos : Option ℚ)
    (orderOkA closesOk : Bool) (volNow step lotBase : ℚ) (sig : AgentSig)
    (hcontra : (sig.action = "buy" ∧ sig.marketPosition = "short") ∨
      (sig.action = "sell" ∧ sig.marketPosition = "long")) :
    handleSignal acfg prevPos orderOkA closesOk Side.flat volNow step lotBase sig = ([], true) := by
  rcases hcontra with ⟨ha, hm⟩ | ⟨ha, hm⟩
  · simp [handleSignal, ha, hm]
  · simp [handleSignal, ha, hm]

/-- Witness for C7: flat account, buy signal declaring a short position. -/
theorem c7_safety_gate_no_entry_witness :
    handleSignal ⟨false, none, 3/5⟩ none true true Side.flat 0 (1/10) (3/5)
      ⟨"buy", some 3, some 6, "short"⟩ = ([], true) :=
  c7_safety_gate_no_entry ⟨false, none, 3/5⟩ none true true 0 (1/10) (3/5)
    ⟨"buy", some 3, some 6, "short"⟩ (Or.inl ⟨rfl, rfl⟩)

/-- C8 counterexample. Claim: every pulled queue item is acknowledged with an
explicit outcome status, failures acknowledged as failed. Refutation: for a
batch holding a single item with id 1 whose handle_signal outcome is failure,
the ack id list built by poll_loop is empty — the failed item is not
acknowledged at all (and the /ack request carries no status field). -/
theorem c8_failed_item_unacked :
    ackIdsOf [(some 1, false)] = [] ∧ (1:ℤ) ∉ ackIdsOf [(some 1, false)] := by
  constructor
  · rfl
  · decide

/-- C8 amended. An id is acknowledged if and only if some pulled item carries
that id together with a successful handle_signal outcome: successfully
processed items are acknowledged (with no status field), and items that only
failed are left unacknowledged, to be redelivered by the queue, rather than
acknowledged as failed. -/
theorem c8_ack_iff_success (items : List (Option ℤ × Bool)) (i : ℤ) :
    i ∈ ackIdsOf items ↔ (some i, true) ∈ items := by
  unfold ackIdsOf
  rw [List.mem_filterMap]
  constructor
  · rintro ⟨⟨o, b⟩, hm, hf⟩
    cases b
    · simp at hf
    · simp at hf
      subst hf
      exact hm
  · intro h
    exact ⟨(some i, true), h, rfl⟩

/-- C9. Confirmed: if a request is processed (not filtered as duplicate) at
time t0, then an identical payload arriving at time t1 with t1 - t0 under 1.5
seconds is answered dup_skip with no order submitted and no state change —
the duplicate filter stores the key tuple and timestamp of the first request
and short-circuits before any position read or order. -/
theorem c9_dup_skip (cfg : SymCfg) (st0 : DedupSt) (t0 t1 : ℚ)
    (orderOk orderOk2 : Bool) (net net2 : ℚ) (p : Payload)
    (hfirst : ¬(st0.lastKey = some (payKey p) ∧ t0 - st0.lastTs < 3/2))
    (hgap : t1 - t0 < 3/2) :
    webhook cfg (webhook cfg st0 t0 orderOk net p).st t1 orderOk2 net2 p =
      ⟨(webhook cfg st0 t0 orderOk net p).st, net2, [], "dup_skip"⟩ := by
  have hst := webhook_st cfg st0 t0 orderOk net p hfirst
  rw [hst]
  simp only [webhook]
  rw [if_pos ⟨by trivial, hgap⟩]

/-- Witness for C9: identical buy payloads one second apart. -/
theorem c9_dup_skip_witness :
    webhook ⟨1/10, 1/10, 100⟩
        (webhook ⟨1/10, 1/10, 100⟩ ⟨none, 0⟩ 10 true 9 ⟨"NQ1!", "buy", 3, 12, none, "long"⟩).st
        11 true 9 ⟨"NQ1!", "buy", 3, 12, none, "long"⟩ =
      ⟨(webhook ⟨1/10, 1/10, 100⟩ ⟨none, 0⟩ 10 true 9 ⟨"NQ1!", "buy", 3, 12, none, "long"⟩).st,
        9, [], "dup_skip"⟩ :=
  c9_dup_skip ⟨1/10, 1/10, 100⟩ ⟨none, 0⟩ 10 11 true true 9 9
    ⟨"NQ1!", "buy", 3, 12, none, "long"⟩ (by decide) (by norm_num)

/-- C10. Confirmed: when the requested volume snaps (round to nearest step,
then 10 decimals) strictly below the effective minimum lot,
symbol_round_volume returns exactly 0, and send_market_order then submits no
order yet returns True — indistinguishable, for the caller, from a filled
order. -/
theorem c10_small_volume_silent_success (cfg : SymCfg) (orderOk : Bool)
    (purpose : Purpose) (net : ℚ) (side : Side) (volume : ℚ)
    (hsnap : pyRoundTo ((pyRoundInt (volume / effStep cfg.volumeStep) : ℚ) *
        effStep cfg.volumeStep) 10 < effMin cfg.volumeStep cfg.volumeMin)
    (hvmax : 0 ≤ effMaxServer cfg.volumeMax volume) :
    symbolRoundVolume cfg volume = 0 ∧
    sendMarketOrderS cfg orderOk purpose net side volume = (net, [], true) := by
  have h0 : symbolRoundVolume cfg volume = 0 := by
    simp only [symbolRoundVolume]
    rw [if_pos hsnap, if_neg (not_lt.mpr hvmax)]
  refine ⟨h0, ?_⟩
  simp only [sendMarketOrderS, h0]
  rw [if_pos le_rfl]

/-- Witness for C10: request 0.04 lots on a symbol with step 0.1, minimum 0.1. -/
theorem c10_small_volume_silent_success_witness :
    symbolRoundVolume ⟨1/10, 1/10, 100⟩ (1/25) = 0 ∧
    sendMarketOrderS ⟨1/10, 1/10, 100⟩ true Purpose.entry 5 Side.long (1/25) = (5, [], true) :=
  c10_small_volume_silent_success ⟨1/10, 1/10, 100⟩ true Purpose.entry 5 Side.long (1/25)
    (by norm_num [pyRoundTo, pyRoundInt, effStep, effMin]) (by norm_num [effMaxServer])
